import Mathlib

/-!
Shallow embedding of the @erictaylor/csp library (TypeScript) for
verification of its natural-language specification.

Source files embedded:
  * src/src/directive.ts : the directive catalog (five string enums), the
    custom sort order DIRECTIVE_SORT_ORDER and the comparator sortDirectives.
  * src/src/value.ts (unnamed/part_006) : keyword, unsafe-keyword and
    scheme-source value constants, formatNonceValue, formatHashValue and the
    synchronous part of hashSource.
  * src/src/config.ts : PolicyConfig and configToSourceExpressionList.
  * src/src/policy.ts : formatPolicyDirective and formatPolicyDirectiveList.

Strings are Lean Strings; JavaScript objects used as flag records are
association lists from key to boolean (JavaScript object keys are unique and
ordered, so theorems that need key uniqueness take a Nodup hypothesis).
JavaScript code-unit string comparison (the default Array.prototype.sort
order, and localeCompare on the ASCII identifiers used by this library) is
modelled by lexicographic comparison of the character lists.
-/

/-- Lexicographic strict comparison of character lists, modelling the
JavaScript code-unit order on strings (all strings compared by this library
are ASCII, where code-unit order and code-point order coincide, and
localeCompare agrees with both on the flag names involved). -/
def charListLt : List Char → List Char → Bool
  | [], [] => false
  | [], _ :: _ => true
  | _ :: _, [] => false
  | a :: as, b :: bs => if a = b then charListLt as bs else decide (a < b)

/-- Code-unit comparison on strings: a strictly before b. -/
def strLt (a b : String) : Bool := charListLt a.data b.data

/-- The non-strict sort relation used to model a JavaScript stable sort with
an order-consistent comparator: a may stay before b iff b is not strictly
smaller than a. -/
def strLe (a b : String) : Prop := strLt b a = false

instance : DecidableRel strLe := fun _a _b => inferInstanceAs (Decidable (_ = false))

theorem charListLt_asymm : ∀ {a b : List Char}, charListLt a b = true → charListLt b a = false
  | [], [], h => by simp [charListLt] at h
  | [], _ :: _, _ => by simp [charListLt]
  | _ :: _, [], h => by simp [charListLt] at h
  | a :: as, b :: bs, h => by
    by_cases hab : a = b
    · subst hab
      simp only [charListLt, if_pos rfl] at h ⊢
      exact charListLt_asymm h
    · simp only [charListLt, if_neg hab] at h
      have hba : b ≠ a := fun hc => hab hc.symm
      simp only [charListLt, if_neg hba]
      simp only [decide_eq_true_eq] at h
      simp [not_lt_of_gt h]

theorem charListLt_trans : ∀ {a b c : List Char},
    charListLt a b = true → charListLt b c = true → charListLt a c = true
  | [], [], _, h, _ => by simp [charListLt] at h
  | [], _ :: _, [], _, h => by simp [charListLt] at h
  | [], _ :: _, _ :: _, _, _ => by simp [charListLt]
  | _ :: _, [], _, h, _ => by simp [charListLt] at h
  | _ :: _, _ :: _, [], _, h => by simp [charListLt] at h
  | a :: as, b :: bs, c :: cs, h1, h2 => by
    by_cases hab : a = b
    · subst hab
      simp only [charListLt, if_pos rfl] at h1
      by_cases hac : a = c
      · subst hac
        simp only [charListLt, if_pos rfl] at h2 ⊢
        exact charListLt_trans h1 h2
      · simpa only [charListLt, if_neg hac] using h2
    · simp only [charListLt, if_neg hab, decide_eq_true_eq] at h1
      by_cases hbc : b = c
      · subst hbc
        simp [charListLt, if_neg hab, h1]
      · simp only [charListLt, if_neg hbc, decide_eq_true_eq] at h2
        have hlt : a < c := lt_trans h1 h2
        have hac : a ≠ c := ne_of_lt hlt
        simp [charListLt, if_neg hac, hlt]

theorem charListLt_trichotomy : ∀ (a b : List Char),
    charListLt a b = true ∨ a = b ∨ charListLt b a = true
  | [], [] => Or.inr (Or.inl rfl)
  | [], _ :: _ => Or.inl (by simp [charListLt])
  | _ :: _, [] => Or.inr (Or.inr (by simp [charListLt]))
  | a :: as, b :: bs => by
    by_cases hab : a = b
    · subst hab
      rcases charListLt_trichotomy as bs with h | h | h
      · exact Or.inl (by simp [charListLt, h])
      · exact Or.inr (Or.inl (by rw [h]))
      · exact Or.inr (Or.inr (by simp [charListLt, h]))
    · rcases lt_trichotomy a b with h | h | h
      · exact Or.inl (by simp [charListLt, if_neg hab, h])
      · exact absurd h hab
      · have hba : b ≠ a := fun hc => hab hc.symm
        exact Or.inr (Or.inr (by simp [charListLt, if_neg hba, h]))

/-! ## src/src/directive.ts : the directive catalog -/

/-- Values of enum FetchDirective, in declaration order. -/
def FetchDirective.values : List String :=
  ["child-src", "connect-src", "default-src", "fenced-frame-src", "font-src",
   "frame-src", "img-src", "manifest-src", "media-src", "object-src",
   "prefetch-src", "script-src", "script-src-attr", "script-src-elem",
   "style-src", "style-src-attr", "style-src-elem", "worker-src"]

/-- Values of enum DocumentDirective, in declaration order. -/
def DocumentDirective.values : List String := ["base-uri", "sandbox"]

/-- Values of enum NavigationDirective, in declaration order. -/
def NavigationDirective.values : List String := ["form-action", "frame-ancestors"]

/-- Values of enum ReportingDirective, in declaration order. -/
def ReportingDirective.values : List String := ["report-to", "report-uri"]

/-- Values of enum OtherDirective, in declaration order. -/
def OtherDirective.values : List String :=
  ["require-trusted-types-for", "trusted-types", "upgrade-insecure-requests"]

/-- Object.values(Directive): the directive catalog, the five enums spread in
the order Fetch, Document, Navigation, Reporting, Other (all enum keys are
distinct, so the spread keeps every value). -/
def Directive.values : List String :=
  FetchDirective.values ++ DocumentDirective.values ++ NavigationDirective.values
    ++ ReportingDirective.values ++ OtherDirective.values

/-- Array.prototype.sort() with no comparator on an array of strings:
stable sort in code-unit order. -/
def sortStrings (l : List String) : List String := List.insertionSort strLe l

/-- FETCH_DIRECTIVE_CUSTOM_ORDER from directive.ts. -/
def FETCH_DIRECTIVE_CUSTOM_ORDER : List String :=
  ["default-src", "script-src", "style-src", "img-src", "font-src"]

/-- DIRECTIVE_SORT_ORDER from directive.ts: the pinned fetch directives, the
remaining fetch directives sorted, then the Navigation, Other, Document and
Reporting enum values, each sorted. -/
def DIRECTIVE_SORT_ORDER : List String :=
  FETCH_DIRECTIVE_CUSTOM_ORDER
    ++ sortStrings (FetchDirective.values.filter
        (fun d => FETCH_DIRECTIVE_CUSTOM_ORDER.contains d = false))
    ++ sortStrings NavigationDirective.values
    ++ sortStrings OtherDirective.values
    ++ sortStrings DocumentDirective.values
    ++ sortStrings ReportingDirective.values

/-- Array.prototype.indexOf semantics: index of the first occurrence, or -1
when the element is absent. -/
def jsIndexOf (l : List String) (a : String) : Int :=
  if l.contains a then (l.indexOf a : Int) else -1

/-- sortDirectives from directive.ts. -/
def sortDirectives (a b : String) : Int :=
  jsIndexOf DIRECTIVE_SORT_ORDER a - jsIndexOf DIRECTIVE_SORT_ORDER b

/-! ## Order facts for the sort relation -/

instance : IsTotal String strLe :=
  ⟨fun a b => by
    rcases charListLt_trichotomy b.data a.data with h | h | h
    · right
      show charListLt a.data b.data = false
      exact charListLt_asymm h
    · left
      show charListLt b.data a.data = false
      rw [h]
      cases hx : charListLt a.data a.data with
      | false => rfl
      | true => exact absurd (charListLt_asymm hx) (by simp [hx])
    · left
      exact charListLt_asymm h⟩

instance : IsTrans String strLe :=
  ⟨fun a b c hab hbc => by
    have hab' : charListLt b.data a.data = false := hab
    have hbc' : charListLt c.data b.data = false := hbc
    show charListLt c.data a.data = false
    cases hca : charListLt c.data a.data with
    | false => rfl
    | true =>
      rcases charListLt_trichotomy b.data c.data with h | h | h
      · have hba := charListLt_trans h hca
        exact Bool.noConfusion (hab'.symm.trans hba)
      · rw [h] at hab'
        exact Bool.noConfusion (hab'.symm.trans hca)
      · exact Bool.noConfusion (hbc'.symm.trans h)⟩

/-! ## Claim C1 and C10 material -/

/-- The sort order exactly as the specification describes it: the five pinned
fetch directives, the remaining fetch directives alphabetically, then
navigation, other, document and reporting directives, each alphabetically. -/
def DIRECTIVE_SORT_ORDER_spec : List String :=
  ["default-src", "script-src", "style-src", "img-src", "font-src",
   "child-src", "connect-src", "fenced-frame-src", "frame-src", "manifest-src",
   "media-src", "object-src", "prefetch-src", "script-src-attr",
   "script-src-elem", "style-src-attr", "style-src-elem", "worker-src",
   "form-action", "frame-ancestors",
   "require-trusted-types-for", "trusted-types", "upgrade-insecure-requests",
   "base-uri", "sandbox",
   "report-to", "report-uri"]

theorem sortOrder_eq_spec : DIRECTIVE_SORT_ORDER = DIRECTIVE_SORT_ORDER_spec := by decide

theorem sortOrder_nodup : DIRECTIVE_SORT_ORDER.Nodup := by decide

theorem catalog_sub_sortOrder : ∀ d ∈ Directive.values, d ∈ DIRECTIVE_SORT_ORDER := by decide

theorem jsIndexOf_of_mem {l : List String} {a : String} (h : a ∈ l) :
    jsIndexOf l a = (l.indexOf a : Int) := by
  unfold jsIndexOf
  rw [if_pos]
  exact (List.elem_iff).2 h

theorem sortDirectives_eq_sub {a b : String}
    (ha : a ∈ Directive.values) (hb : b ∈ Directive.values) :
    sortDirectives a b
      = (DIRECTIVE_SORT_ORDER_spec.indexOf a : Int)
        - (DIRECTIVE_SORT_ORDER_spec.indexOf b : Int) := by
  have ha' : a ∈ DIRECTIVE_SORT_ORDER := catalog_sub_sortOrder a ha
  have hb' : b ∈ DIRECTIVE_SORT_ORDER := catalog_sub_sortOrder b hb
  unfold sortDirectives
  rw [jsIndexOf_of_mem ha', jsIndexOf_of_mem hb', sortOrder_eq_spec]

theorem sortDirectives_neg_iff {a b : String}
    (ha : a ∈ Directive.values) (hb : b ∈ Directive.values) :
    sortDirectives a b < 0
      ↔ DIRECTIVE_SORT_ORDER_spec.indexOf a < DIRECTIVE_SORT_ORDER_spec.indexOf b := by
  rw [sortDirectives_eq_sub ha hb, sub_neg]
  exact Nat.cast_lt

theorem sortDirectives_zero_iff {a b : String}
    (ha : a ∈ Directive.values) (hb : b ∈ Directive.values) :
    sortDirectives a b = 0 ↔ a = b := by
  have ha' : a ∈ DIRECTIVE_SORT_ORDER_spec := by
    rw [← sortOrder_eq_spec]; exact catalog_sub_sortOrder a ha
  have hb' : b ∈ DIRECTIVE_SORT_ORDER_spec := by
    rw [← sortOrder_eq_spec]; exact catalog_sub_sortOrder b hb
  rw [sortDirectives_eq_sub ha hb, sub_eq_zero]
  constructor
  · intro h
    exact (List.indexOf_inj ha' hb').1 (by exact_mod_cast h)
  · intro h
    rw [h]

/-- C1: DIRECTIVE_SORT_ORDER is exactly the five pinned fetch directives
default-src, script-src, style-src, img-src, font-src, then the remaining
fetch directives alphabetically, then navigation, other, document and
reporting directives each alphabetically; and on catalog directives
sortDirectives is the difference of positions in that order, a strict total
order consistent with it: negative iff a precedes b, zero iff a equals b. -/
theorem c1_directive_sort_order :
    DIRECTIVE_SORT_ORDER = DIRECTIVE_SORT_ORDER_spec ∧
    ∀ a ∈ Directive.values, ∀ b ∈ Directive.values,
      sortDirectives a b
          = (DIRECTIVE_SORT_ORDER_spec.indexOf a : Int)
            - (DIRECTIVE_SORT_ORDER_spec.indexOf b : Int)
        ∧ (sortDirectives a b < 0
            ↔ DIRECTIVE_SORT_ORDER_spec.indexOf a < DIRECTIVE_SORT_ORDER_spec.indexOf b)
        ∧ (sortDirectives a b = 0 ↔ a = b) :=
  ⟨sortOrder_eq_spec, fun _ ha _ hb =>
    ⟨sortDirectives_eq_sub ha hb, sortDirectives_neg_iff ha hb,
      sortDirectives_zero_iff ha hb⟩⟩

/-- Witness for C1 at the concrete pair default-src, script-src. -/
theorem c1_witness :
    sortDirectives "default-src" "script-src"
        = (DIRECTIVE_SORT_ORDER_spec.indexOf "default-src" : Int)
          - (DIRECTIVE_SORT_ORDER_spec.indexOf "script-src" : Int)
      ∧ (sortDirectives "default-src" "script-src" < 0
          ↔ DIRECTIVE_SORT_ORDER_spec.indexOf "default-src"
            < DIRECTIVE_SORT_ORDER_spec.indexOf "script-src")
      ∧ (sortDirectives "default-src" "script-src" = 0
          ↔ "default-src" = "script-src") :=
  c1_directive_sort_order.2 "default-src" (by decide) "script-src" (by decide)

/-- C10: DIRECTIVE_SORT_ORDER is a permutation of the directive catalog:
every catalog directive occurs exactly once and is found at an in-range
index, and on catalog directives sortDirectives returns 0 only for equal
arguments. -/
theorem c10_sort_order_is_permutation :
    DIRECTIVE_SORT_ORDER.Perm Directive.values ∧
    (∀ d ∈ Directive.values, DIRECTIVE_SORT_ORDER.count d = 1) ∧
    (∀ d ∈ Directive.values, DIRECTIVE_SORT_ORDER.indexOf d < DIRECTIVE_SORT_ORDER.length) ∧
    (∀ a ∈ Directive.values, ∀ b ∈ Directive.values, (sortDirectives a b = 0 ↔ a = b)) :=
  ⟨by decide, by decide, by decide, fun _ ha _ hb => sortDirectives_zero_iff ha hb⟩

/-- Witness for C10 at concrete catalog directives. -/
theorem c10_witness :
    DIRECTIVE_SORT_ORDER.count "img-src" = 1
      ∧ (sortDirectives "sandbox" "base-uri" = 0 ↔ "sandbox" = "base-uri") :=
  ⟨c10_sort_order_is_permutation.2.1 "img-src" (by decide),
    c10_sort_order_is_permutation.2.2.2 "sandbox" (by decide) "base-uri" (by decide)⟩

/-! ## src/src/constants.ts and src/src/value.ts -/

/-- HASH_ALGORITHMS from constants.ts. -/
def HASH_ALGORITHMS : List String := ["SHA-256", "SHA-384", "SHA-512"]

/-- The TypeScript union type HashAlgorithm: exactly the three supported
identifiers. Used where the source is typed with HashAlgorithm, so that a
well-typed value cannot be outside the closed set. -/
inductive HashAlgorithm where
  | sha256
  | sha384
  | sha512
deriving DecidableEq, Repr

/-- The literal string of a HashAlgorithm value. -/
def HashAlgorithm.name : HashAlgorithm → String
  | .sha256 => "SHA-256"
  | .sha384 => "SHA-384"
  | .sha512 => "SHA-512"

/-- Error taxonomy of the library. InvalidAlgorithm models the Error thrown
by formatHashValue with the offending algorithm identifier. -/
inductive CspError where
  | invalidAlgorithm (algorithm : String)
deriving DecidableEq, Repr

/-- String.prototype.trim modelled on the character list: strip leading and
trailing whitespace. -/
def jsTrim (s : String) : String :=
  ⟨((s.data.dropWhile Char.isWhitespace).reverse.dropWhile Char.isWhitespace).reverse⟩

/-- Array.prototype.join(sep). -/
def joinSep (sep : String) : List String → String
  | [] => ""
  | [s] => s
  | s :: rest => s ++ sep ++ joinSep sep rest

/-- KeywordValue constants from value.ts. -/
def KeywordValue.Self : String := "'self'"

def KeywordValue.StrictDynamic : String := "'strict-dynamic'"

def KeywordValue.InlineSpeculationRules : String := "'inline-speculation-rules'"

def KeywordValue.ReportSample : String := "'report-sample'"

def KeywordValue.None : String := "'none'"

/-- UnsafeKeywordValue constants from value.ts. -/
def UnsafeKeywordValue.UnsafeEval : String := "'unsafe-eval'"

def UnsafeKeywordValue.UnsafeHashes : String := "'unsafe-hashes'"

def UnsafeKeywordValue.UnsafeInline : String := "'unsafe-inline'"

def UnsafeKeywordValue.WasmUnsafeEval : String := "'wasm-unsafe-eval'"

/-- SchemeSourceValue constants from value.ts. -/
def SchemeSourceValue.Blob : String := "blob:"

def SchemeSourceValue.Data : String := "data:"

def SchemeSourceValue.Filesystem : String := "filesystem:"

def SchemeSourceValue.Http : String := "http:"

def SchemeSourceValue.Https : String := "https:"

def SchemeSourceValue.Mediastream : String := "mediastream:"

def SchemeSourceValue.Websocket : String := "ws:"

def SchemeSourceValue.Wss : String := "wss:"

/-- formatNonceValue from value.ts. -/
def formatNonceValue (nonce : String) : String := "'nonce-" ++ jsTrim nonce ++ "'"

/-- Remove the first dash, modelling String.prototype.replace with the string
pattern "-" (which replaces only the first occurrence). -/
def removeFirstDash : List Char → List Char
  | [] => []
  | c :: cs => if c = '-' then cs else c :: removeFirstDash cs

/-- formatHashAlgorithm from value.ts: toLowerCase then replace the first
dash by nothing. -/
def formatHashAlgorithm (algorithm : String) : String :=
  ⟨removeFirstDash (algorithm.data.map Char.toLower)⟩

/-- formatHashValue from value.ts: throws InvalidAlgorithm when the
identifier is outside HASH_ALGORITHMS, otherwise renders the quoted token. -/
def formatHashValue (algorithm : String) (hash : String) : Except CspError String :=
  if HASH_ALGORITHMS.contains algorithm then
    .ok ("'" ++ formatHashAlgorithm algorithm ++ "-" ++ jsTrim hash ++ "'")
  else
    .error (.invalidAlgorithm algorithm)

/-- The digest request hashSource hands to the platform primitive
crypto.subtle.digest: the algorithm identifier, passed through unvalidated,
and the source string (which the code UTF-8 encodes with TextEncoder before
the call; the digest itself and the base64 step are external collaborators
outside this embedding). -/
structure DigestRequest where
  algorithm : String
  source : String
deriving DecidableEq, Repr

/-- hashSource from value.ts, synchronous phase: it performs no algorithm
validation and never raises InvalidAlgorithm; it directly issues the digest
request for the given algorithm. -/
def hashSource (algorithm : String) (source : String) : Except CspError DigestRequest :=
  .ok ⟨algorithm, source⟩

instance {ε α : Type} [DecidableEq ε] [DecidableEq α] : DecidableEq (Except ε α) :=
  fun x y =>
    match x, y with
    | .ok a, .ok b =>
      if h : a = b then .isTrue (by rw [h]) else
        .isFalse (fun hc => h (Except.ok.inj hc))
    | .error a, .error b =>
      if h : a = b then .isTrue (by rw [h]) else
        .isFalse (fun hc => h (Except.error.inj hc))
    | .ok _, .error _ => .isFalse (fun hc => Except.noConfusion hc)
    | .error _, .ok _ => .isFalse (fun hc => Except.noConfusion hc)

/-- The token formatHashValue produces for a well-typed algorithm. -/
def hashToken (a : HashAlgorithm) (h : String) : String :=
  "'" ++ formatHashAlgorithm a.name ++ "-" ++ jsTrim h ++ "'"

theorem formatHashValue_name_ok (a : HashAlgorithm) (h : String) :
    formatHashValue a.name h = .ok (hashToken a h) := by
  cases a <;>
    · unfold formatHashValue hashToken
      rw [if_pos (by decide)]

/-- C4 counterexample: on an algorithm outside the closed set, hashSource
does not fail with InvalidAlgorithm (it issues the digest request with the
invalid identifier), although formatHashValue does fail. -/
theorem c4_counterexample :
    formatHashValue "MD5" "x" = .error (.invalidAlgorithm "MD5")
      ∧ hashSource "MD5" "x" = .ok ⟨"MD5", "x"⟩
      ∧ ∀ e : CspError, hashSource "MD5" "x" ≠ .error e := by
  refine ⟨rfl, rfl, ?_⟩
  intro e h
  exact Except.noConfusion h

/-- C4 amended: formatHashValue, given an algorithm identifier outside the
closed three-element set, fails synchronously with InvalidAlgorithm before
producing any formatted output; hashSource, by contrast, performs no
synchronous validation and never raises InvalidAlgorithm, forwarding the
identifier unchanged to the platform digest primitive. -/
theorem c4_amended (algorithm : String) (hout : algorithm ∉ HASH_ALGORITHMS) :
    (∀ hash, formatHashValue algorithm hash = .error (.invalidAlgorithm algorithm))
      ∧ (∀ source, hashSource algorithm source = .ok ⟨algorithm, source⟩) := by
  constructor
  · intro hash
    unfold formatHashValue
    rw [if_neg (fun hc => hout (List.elem_iff.1 hc))]
  · intro source
    rfl

/-- Witness for C4 amended at the algorithm MD5. -/
theorem c4_witness :
    formatHashValue "MD5" "abc" = .error (.invalidAlgorithm "MD5")
      ∧ hashSource "MD5" "abc" = .ok ⟨"MD5", "abc"⟩ :=
  ⟨(c4_amended "MD5" (by decide)).1 "abc", (c4_amended "MD5" (by decide)).2 "abc"⟩

/-- C5: for SHA-256, SHA-384 and SHA-512, formatHashValue returns the single
quoted token built from the lowercased dash-free algorithm name, a hyphen
and the hash trimmed of leading and trailing whitespace, with the three
concrete examples of the specification. -/
theorem c5_format_hash_value :
    (∀ h : String, formatHashValue "SHA-256" h = .ok ("'sha256-" ++ jsTrim h ++ "'"))
      ∧ (∀ h : String, formatHashValue "SHA-384" h = .ok ("'sha384-" ++ jsTrim h ++ "'"))
      ∧ (∀ h : String, formatHashValue "SHA-512" h = .ok ("'sha512-" ++ jsTrim h ++ "'"))
      ∧ formatHashValue "SHA-256" "abc123" = .ok "'sha256-abc123'"
      ∧ formatHashValue "SHA-384" "abc123" = .ok "'sha384-abc123'"
      ∧ formatHashValue "SHA-512" "abc123" = .ok "'sha512-abc123'" := by
  refine ⟨?_, ?_, ?_, by decide, by decide, by decide⟩
  · intro h
    unfold formatHashValue
    rw [if_pos (by decide)]
    rw [show ("'" ++ formatHashAlgorithm "SHA-256") ++ "-" = "'sha256-" from by decide]
  · intro h
    unfold formatHashValue
    rw [if_pos (by decide)]
    rw [show ("'" ++ formatHashAlgorithm "SHA-384") ++ "-" = "'sha384-" from by decide]
  · intro h
    unfold formatHashValue
    rw [if_pos (by decide)]
    rw [show ("'" ++ formatHashAlgorithm "SHA-512") ++ "-" = "'sha512-" from by decide]

/-! ## src/src/config.ts -/

/-- UNSAFE_KEYWORD_MAP from config.ts, as an association list in the
declaration order of the record (which is alphabetical by flag name). -/
def UNSAFE_KEYWORD_MAP : List (String × String) :=
  [("unsafeEval", UnsafeKeywordValue.UnsafeEval),
   ("unsafeHashes", UnsafeKeywordValue.UnsafeHashes),
   ("unsafeInline", UnsafeKeywordValue.UnsafeInline),
   ("wasmUnsafeEval", UnsafeKeywordValue.WasmUnsafeEval)]

/-- isUnsafeKeyword from config.ts: key in UNSAFE_KEYWORD_MAP. -/
def isUnsafeKeyword (key : String) : Bool := (UNSAFE_KEYWORD_MAP.lookup key).isSome

/-- SCHEME_KEYWORD_MAP from config.ts, in declaration order (alphabetical by
flag name). -/
def SCHEME_KEYWORD_MAP : List (String × String) :=
  [("blob", SchemeSourceValue.Blob),
   ("data", SchemeSourceValue.Data),
   ("filesystem", SchemeSourceValue.Filesystem),
   ("http", SchemeSourceValue.Http),
   ("https", SchemeSourceValue.Https),
   ("mediastream", SchemeSourceValue.Mediastream),
   ("ws", SchemeSourceValue.Websocket),
   ("wss", SchemeSourceValue.Wss)]

/-- isSchemeKeyword from config.ts. -/
def isSchemeKeyword (key : String) : Bool := (SCHEME_KEYWORD_MAP.lookup key).isSome

/-- PolicyConfig from config.ts. The boolean flag sections given as JavaScript
objects (the unsafe and schema records) are association lists of key-value
entries in insertion order; absent optional booleans default to false, absent
lists and sections default to empty, exactly as the destructuring defaults in
configToSourceExpressionList do. The unsafe record field is named unsafeCfg
here. Hashes are pairs of a (well-typed) HashAlgorithm and a hash string. -/
structure PolicyConfig where
  hashes : List (HashAlgorithm × String) := []
  hosts : List String := []
  inlineSpeculationRules : Bool := false
  nonces : List String := []
  reportSample : Bool := false
  schema : List (String × Bool) := []
  self : Bool := false
  strictDynamic : Bool := false
  unsafeCfg : List (String × Bool) := []

/-- Key uniqueness of a JavaScript object rendered as an association list. -/
def keysNodup (l : List (String × Bool)) : Prop := (l.map Prod.fst).Nodup

instance (l : List (String × Bool)) : Decidable (keysNodup l) :=
  inferInstanceAs (Decidable (List.Nodup _))

/-- The comparator key ordering used by Object.entries(...).sort with
localeCompare on the keys, modelled by code-unit order (they agree on the
ASCII flag names of this library). -/
def entryLe (x y : String × Bool) : Prop := strLe x.1 y.1

instance : DecidableRel entryLe := fun x y => inferInstanceAs (Decidable (strLe x.1 y.1))

instance : IsTotal (String × Bool) entryLe := ⟨fun x y => IsTotal.total (r := strLe) x.1 y.1⟩

instance : IsTrans (String × Bool) entryLe :=
  ⟨fun _ _ _ h1 h2 => Trans.trans (r := strLe) (s := strLe) h1 h2⟩

/-- Object.entries(record).sort(([keyA], [keyB]) => keyA.localeCompare(keyB)):
a stable sort of the entries by key. -/
def sortEntries (l : List (String × Bool)) : List (String × Bool) :=
  List.insertionSort entryLe l

/-- The value-list stage for a flag section: iterate the sorted entries and
push the mapped token of every true flag whose key is in the map. -/
def flagSectionTokens (M : List (String × String)) (l : List (String × Bool)) : List String :=
  (sortEntries l).filterMap fun kv => if kv.2 then M.lookup kv.1 else none

/-- formatHashTokens: the stage-8 loop of configToSourceExpressionList,
pushing formatHashValue(algorithm, hash) for each hash descriptor and
propagating its exception. -/
def formatHashTokens : List (HashAlgorithm × String) → Except CspError (List String)
  | [] => .ok []
  | p :: rest =>
    match formatHashValue p.1.name p.2 with
    | .error e => .error e
    | .ok t =>
      match formatHashTokens rest with
      | .error e => .error e
      | .ok ts => .ok (t :: ts)

/-- configToSourceExpressionList from config.ts: the nine stages pushed into
the accumulator in order, space-joined. -/
def configToSourceExpressionList (c : PolicyConfig) : Except CspError String :=
  match formatHashTokens c.hashes with
  | .error e => .error e
  | .ok hashTokens =>
    .ok (joinSep " "
      ((if c.self then [KeywordValue.Self] else [])
        ++ (if c.strictDynamic then [KeywordValue.StrictDynamic] else [])
        ++ (if c.inlineSpeculationRules then [KeywordValue.InlineSpeculationRules] else [])
        ++ (if c.reportSample then [KeywordValue.ReportSample] else [])
        ++ flagSectionTokens UNSAFE_KEYWORD_MAP c.unsafeCfg
        ++ flagSectionTokens SCHEME_KEYWORD_MAP c.schema
        ++ c.hosts
        ++ hashTokens
        ++ c.nonces.map formatNonceValue))

/-! Specification-side stage functions for claims C2, C8 and C9. -/

/-- Whether a flag of a section is present and true. -/
def flagTrue (l : List (String × Bool)) (k : String) : Bool := (l.lookup k).getD false

/-- The tokens of a flag section as the specification describes them: the
known flags iterated in map order (alphabetical by flag name), the mapped
token appended for each true flag; independent of entry order of the input. -/
def sectionTokensSpec (M : List (String × String)) (l : List (String × Bool)) : List String :=
  M.filterMap fun kv => if flagTrue l kv.1 then some kv.2 else none

/-- Stages 1 to 4: the primary keyword tokens in fixed order. -/
def primaryTokens (c : PolicyConfig) : List String :=
  (if c.self then [KeywordValue.Self] else [])
    ++ (if c.strictDynamic then [KeywordValue.StrictDynamic] else [])
    ++ (if c.inlineSpeculationRules then [KeywordValue.InlineSpeculationRules] else [])
    ++ (if c.reportSample then [KeywordValue.ReportSample] else [])

/-- The full token list of configToSourceExpressionList as the specification
describes it, stage by stage. -/
def specTokens (c : PolicyConfig) : List String :=
  primaryTokens c
    ++ sectionTokensSpec UNSAFE_KEYWORD_MAP c.unsafeCfg
    ++ sectionTokensSpec SCHEME_KEYWORD_MAP c.schema
    ++ c.hosts
    ++ c.hashes.map (fun p => hashToken p.1 p.2)
    ++ c.nonces.map formatNonceValue

/-! ## The flag-section stage agrees with its specification description -/

theorem charListLt_irrefl (a : List Char) : charListLt a a = false := by
  cases h : charListLt a a with
  | false => rfl
  | true => exact absurd (charListLt_asymm h) (by simp [h])

/-- Strict key order on decorated (key, token) pairs. -/
def keyLtP (x y : String × String) : Prop := charListLt x.1.data y.1.data = true

instance : IsAntisymm (String × String) keyLtP :=
  ⟨fun _ _ h1 h2 => absurd ((charListLt_asymm h1).symm.trans h2) Bool.noConfusion⟩

theorem lookup_eq_some_iff {β : Type} :
    ∀ {l : List (String × β)}, (l.map Prod.fst).Nodup →
      ∀ {k : String} {v : β}, (l.lookup k = some v ↔ (k, v) ∈ l)
  | [], _, k, v => by simp
  | (a, b) :: tl, hl, k, v => by
    simp only [List.map_cons, List.nodup_cons] at hl
    by_cases hk : k = a
    · subst hk
      rw [List.lookup_cons, show (k == k) = true from by simp]
      show some b = some v ↔ (k, v) ∈ (k, b) :: tl
      constructor
      · intro h
        rw [← Option.some.inj h]
        exact List.mem_cons_self _ _
      · intro h
        rcases List.mem_cons.1 h with h | h
        · simp only [Prod.mk.injEq, true_and] at h
          rw [h]
        · exact absurd (List.mem_map_of_mem Prod.fst h) hl.1
    · have hbeq : (k == a) = false := beq_eq_false_iff_ne.2 hk
      rw [List.lookup_cons, hbeq]
      show tl.lookup k = some v ↔ (k, v) ∈ (a, b) :: tl
      rw [lookup_eq_some_iff hl.2]
      constructor
      · exact fun h => List.mem_cons_of_mem _ h
      · intro h
        rcases List.mem_cons.1 h with h | h
        · exact absurd (congrArg Prod.fst h) hk
        · exact h

theorem flagTrue_iff {l : List (String × Bool)} (hl : keysNodup l) {k : String} :
    flagTrue l k = true ↔ (k, true) ∈ l := by
  unfold flagTrue
  cases h : l.lookup k with
  | none =>
    constructor
    · intro hc
      exact Bool.noConfusion hc
    · intro hm
      rw [(lookup_eq_some_iff hl).2 hm] at h
      exact Option.noConfusion h
  | some b =>
    cases b with
    | true =>
      constructor
      · intro _
        exact (lookup_eq_some_iff hl).1 h
      · intro _
        rfl
    | false =>
      constructor
      · intro hc
        exact Bool.noConfusion hc
      · intro hm
        rw [(lookup_eq_some_iff hl).2 hm] at h
        exact Bool.noConfusion (Option.some.inj h)

theorem string_eq_of_data_eq {a b : String} (h : a.data = b.data) : a = b := String.ext h

theorem flagSectionTokens_eq_spec (M : List (String × String))
    (hM : (M.map Prod.fst).Pairwise (fun a b => charListLt a.data b.data = true))
    (l : List (String × Bool)) (hl : keysNodup l) :
    flagSectionTokens M l = sectionTokensSpec M l := by
  classical
  have hMnodup : (M.map Prod.fst).Nodup :=
    hM.imp (fun {a b} h => by
      intro hab
      rw [hab] at h
      exact absurd (h.symm.trans (charListLt_irrefl b.data)) Bool.noConfusion)
  set S := sortEntries l with hS
  have hperm : S.Perm l := List.perm_insertionSort entryLe l
  have hsorted : List.Sorted entryLe S := List.sorted_insertionSort entryLe l
  have hkeysS : (S.map Prod.fst).Nodup := ((hperm.map Prod.fst).nodup_iff).2 hl
  set Lk : List (String × String) :=
    S.filterMap (fun kv => if kv.2 then (M.lookup kv.1).map (fun t => (kv.1, t)) else none)
    with hLk
  set Rk : List (String × String) :=
    M.filterMap (fun kv => if flagTrue l kv.1 then some kv else none) with hRk
  have hA : flagSectionTokens M l = Lk.map Prod.snd := by
    rw [hLk, List.map_filterMap]
    unfold flagSectionTokens
    rw [← hS]
    apply List.filterMap_congr
    intro x _
    cases hx : x.2 with
    | false => simp
    | true => cases M.lookup x.1 <;> simp
  have hB : sectionTokensSpec M l = Rk.map Prod.snd := by
    rw [hRk, List.map_filterMap]
    unfold sectionTokensSpec
    apply List.filterMap_congr
    intro x _
    cases hx : flagTrue l x.1 <;> simp
  have hSlt : S.Pairwise (fun x y => charListLt x.1.data y.1.data = true) := by
    have h1 : S.Pairwise entryLe := hsorted
    have h2 : S.Pairwise (fun x y => x.1 ≠ y.1) := List.pairwise_map.1 hkeysS
    refine (h1.and h2).imp ?_
    intro a b hab
    rcases charListLt_trichotomy a.1.data b.1.data with h | h | h
    · exact h
    · exact absurd (string_eq_of_data_eq h) hab.2
    · have hle : charListLt b.1.data a.1.data = false := hab.1
      exact absurd (hle.symm.trans h) Bool.noConfusion
  have hMlt : M.Pairwise (fun x y => charListLt x.1.data y.1.data = true) :=
    List.pairwise_map.1 hM
  have hC : Lk.Pairwise keyLtP := by
    rw [hLk, List.pairwise_filterMap]
    refine hSlt.imp ?_
    intro a b hab x hx y hy
    rw [Option.mem_def] at hx hy
    by_cases ha2 : a.2 = true
    · rw [if_pos ha2] at hx
      rcases Option.map_eq_some'.1 hx with ⟨t, _, hxt⟩
      by_cases hb2 : b.2 = true
      · rw [if_pos hb2] at hy
        rcases Option.map_eq_some'.1 hy with ⟨u, _, hyu⟩
        subst hxt
        subst hyu
        exact hab
      · rw [if_neg hb2] at hy
        exact Option.noConfusion hy
    · rw [if_neg ha2] at hx
      exact Option.noConfusion hx
  have hD : Rk.Pairwise keyLtP := by
    rw [hRk, List.pairwise_filterMap]
    refine hMlt.imp ?_
    intro a b hab x hx y hy
    rw [Option.mem_def] at hx hy
    by_cases ha : flagTrue l a.1 = true
    · rw [if_pos ha] at hx
      by_cases hb : flagTrue l b.1 = true
      · rw [if_pos hb] at hy
        rw [← Option.some.inj hx, ← Option.some.inj hy]
        exact hab
      · rw [if_neg hb] at hy
        exact Option.noConfusion hy
    · rw [if_neg ha] at hx
      exact Option.noConfusion hx
  have hnePairs : ∀ {x y : String × String}, keyLtP x y → x ≠ y := by
    intro x y h hxy
    rw [hxy] at h
    exact absurd (h.symm.trans (charListLt_irrefl y.1.data)) Bool.noConfusion
  have hLnodup : Lk.Nodup := hC.imp hnePairs
  have hRnodup : Rk.Nodup := hD.imp hnePairs
  have hFL : ∀ x : String × String, x ∈ Lk ↔ ((x.1, true) ∈ l ∧ M.lookup x.1 = some x.2) := by
    intro x
    rw [hLk, List.mem_filterMap]
    constructor
    · rintro ⟨⟨k, v⟩, hkv, heq⟩
      cases v with
      | false => exact absurd heq (by simp)
      | true =>
        rw [if_pos rfl] at heq
        rcases Option.map_eq_some'.1 heq with ⟨t, hlook, hxt⟩
        subst hxt
        exact ⟨(hperm.mem_iff).1 hkv, hlook⟩
    · rintro ⟨hmem, hlook⟩
      refine ⟨(x.1, true), (hperm.mem_iff).2 hmem, ?_⟩
      rw [if_pos rfl, hlook]
      rfl
  have hFR : ∀ x : String × String, x ∈ Rk ↔ ((x.1, true) ∈ l ∧ M.lookup x.1 = some x.2) := by
    intro x
    rw [hRk, List.mem_filterMap]
    constructor
    · rintro ⟨kv, hkv, heq⟩
      by_cases hf : flagTrue l kv.1 = true
      · rw [if_pos hf] at heq
        rw [← Option.some.inj heq]
        refine ⟨(flagTrue_iff hl).1 hf, ?_⟩
        rw [lookup_eq_some_iff hMnodup]
        rw [Prod.mk.eta]
        exact hkv
      · rw [if_neg hf] at heq
        exact Option.noConfusion heq
    · rintro ⟨hmem, hlook⟩
      refine ⟨x, ?_, ?_⟩
      · have := (lookup_eq_some_iff hMnodup).1 hlook
        rw [Prod.mk.eta] at this
        exact this
      · rw [if_pos ((flagTrue_iff hl).2 hmem)]
  have hGperm : Lk.Perm Rk := by
    refine List.perm_of_nodup_nodup_toFinset_eq hLnodup hRnodup ?_
    rw [Finset.ext_iff]
    intro x
    rw [List.mem_toFinset, List.mem_toFinset, hFL x, hFR x]
  rw [hA, hB]
  exact congrArg (List.map Prod.snd) (List.eq_of_perm_of_sorted hGperm hC hD)

/-! ## Assembly lemmas for configToSourceExpressionList -/

theorem strData_append (a b : String) : (a ++ b).data = a.data ++ b.data := rfl

theorem strAppend_assoc (a b c : String) : (a ++ b) ++ c = a ++ (b ++ c) :=
  String.ext (List.append_assoc a.data b.data c.data)

theorem quote_head (x : String) : ("'" ++ x).data.head? = some (Char.ofNat 39) := rfl

theorem hashToken_head (a : HashAlgorithm) (h : String) :
    (hashToken a h).data.head? = some (Char.ofNat 39) := by
  unfold hashToken
  rw [strAppend_assoc, strAppend_assoc, strAppend_assoc]
  exact quote_head _

theorem nonceToken_head (x : String) :
    (formatNonceValue x).data.head? = some (Char.ofNat 39) := by
  unfold formatNonceValue
  rw [strAppend_assoc]
  rfl

theorem catalog_head_not_quote :
    ∀ d ∈ Directive.values, d.data.head? ≠ some (Char.ofNat 39) := by decide

theorem not_directive_of_quote_head {tok : String}
    (h : tok.data.head? = some (Char.ofNat 39)) : tok ∉ Directive.values :=
  fun hm => absurd h (catalog_head_not_quote tok hm)

theorem sectionTokensSpec_subset {M : List (String × String)} {l : List (String × Bool)}
    {tok : String} (h : tok ∈ sectionTokensSpec M l) : tok ∈ M.map Prod.snd := by
  unfold sectionTokensSpec at h
  rcases List.mem_filterMap.1 h with ⟨kv, hkv, heq⟩
  by_cases hf : flagTrue l kv.1 = true
  · rw [if_pos hf] at heq
    rw [← Option.some.inj heq]
    exact List.mem_map_of_mem Prod.snd hkv
  · rw [if_neg hf] at heq
    exact Option.noConfusion heq

theorem primaryTokens_subset (c : PolicyConfig) :
    ∀ tok ∈ primaryTokens c,
      tok = KeywordValue.Self ∨ tok = KeywordValue.StrictDynamic
        ∨ tok = KeywordValue.InlineSpeculationRules ∨ tok = KeywordValue.ReportSample := by
  intro tok htok
  unfold primaryTokens at htok
  rcases List.mem_append.1 htok with h | h
  · rcases List.mem_append.1 h with h | h
    · rcases List.mem_append.1 h with h | h
      · left
        split at h
        · exact List.mem_singleton.1 h
        · exact absurd h (List.not_mem_nil tok)
      · right; left
        split at h
        · exact List.mem_singleton.1 h
        · exact absurd h (List.not_mem_nil tok)
    · right; right; left
      split at h
      · exact List.mem_singleton.1 h
      · exact absurd h (List.not_mem_nil tok)
  · right; right; right
    split at h
    · exact List.mem_singleton.1 h
    · exact absurd h (List.not_mem_nil tok)

theorem formatHashTokens_ok :
    ∀ hs : List (HashAlgorithm × String),
      formatHashTokens hs = .ok (hs.map fun p => hashToken p.1 p.2)
  | [] => rfl
  | p :: rest => by
    unfold formatHashTokens
    rw [formatHashValue_name_ok, formatHashTokens_ok rest]
    rfl

theorem unsafe_map_keys_sorted :
    (UNSAFE_KEYWORD_MAP.map Prod.fst).Pairwise (fun a b => charListLt a.data b.data = true) := by
  decide

theorem scheme_map_keys_sorted :
    (SCHEME_KEYWORD_MAP.map Prod.fst).Pairwise (fun a b => charListLt a.data b.data = true) := by
  decide

theorem config_eq_spec (c : PolicyConfig) (hu : keysNodup c.unsafeCfg)
    (hs : keysNodup c.schema) :
    configToSourceExpressionList c = .ok (joinSep " " (specTokens c)) := by
  unfold configToSourceExpressionList
  rw [formatHashTokens_ok,
    flagSectionTokens_eq_spec UNSAFE_KEYWORD_MAP unsafe_map_keys_sorted c.unsafeCfg hu,
    flagSectionTokens_eq_spec SCHEME_KEYWORD_MAP scheme_map_keys_sorted c.schema hs]
  rfl

theorem fixed_tokens_not_directives :
    ∀ t ∈ [KeywordValue.Self, KeywordValue.StrictDynamic,
        KeywordValue.InlineSpeculationRules, KeywordValue.ReportSample]
      ++ UNSAFE_KEYWORD_MAP.map Prod.snd ++ SCHEME_KEYWORD_MAP.map Prod.snd,
      t ∉ Directive.values := by
  decide

/-- C2: configToSourceExpressionList space-joins the tokens of the nine
stages in order: self, strict-dynamic, inline-speculation-rules and
report-sample keywords for true flags, then the unsafe-keyword tokens of the
true unsafe flags in alphabetical flag-name order (independent of declaration
order), then likewise the scheme tokens, then hosts verbatim in insertion
order, then the formatHashValue renderings, then the formatNonceValue
renderings; the two keyword maps are listed in strictly increasing key order,
each true flag contributes exactly one token, and no token the function
itself produces (every token other than a caller-supplied host) is a
directive name. -/
theorem c2_config_stage_order (c : PolicyConfig)
    (hu : keysNodup c.unsafeCfg) (hs : keysNodup c.schema) :
    configToSourceExpressionList c = .ok (joinSep " " (specTokens c))
      ∧ (UNSAFE_KEYWORD_MAP.map Prod.fst).Pairwise (fun a b => charListLt a.data b.data = true)
      ∧ (SCHEME_KEYWORD_MAP.map Prod.fst).Pairwise (fun a b => charListLt a.data b.data = true)
      ∧ ∀ tok ∈ primaryTokens c
            ++ sectionTokensSpec UNSAFE_KEYWORD_MAP c.unsafeCfg
            ++ sectionTokensSpec SCHEME_KEYWORD_MAP c.schema
            ++ c.hashes.map (fun p => hashToken p.1 p.2)
            ++ c.nonces.map formatNonceValue,
          tok ∉ Directive.values := by
  refine ⟨config_eq_spec c hu hs, unsafe_map_keys_sorted, scheme_map_keys_sorted, ?_⟩
  intro tok htok
  rcases List.mem_append.1 htok with h | h
  · rcases List.mem_append.1 h with h | h
    · rcases List.mem_append.1 h with h | h
      · rcases List.mem_append.1 h with h | h
        · rcases primaryTokens_subset c tok h with h | h | h | h <;>
            · subst h
              decide
        · exact fixed_tokens_not_directives tok
            (List.mem_append.2 (Or.inl (List.mem_append.2 (Or.inr (sectionTokensSpec_subset h)))))
      · exact fixed_tokens_not_directives tok
          (List.mem_append.2 (Or.inr (sectionTokensSpec_subset h)))
    · rcases List.mem_map.1 h with ⟨p, _, hp⟩
      rw [← hp]
      exact not_directive_of_quote_head (hashToken_head p.1 p.2)
  · rcases List.mem_map.1 h with ⟨n, _, hn⟩
    rw [← hn]
    exact not_directive_of_quote_head (nonceToken_head n)

/-- Example configuration used by the C2 witness, with flag sections
deliberately out of alphabetical declaration order. -/
def exampleConfigC2 : PolicyConfig :=
  { hashes := [(HashAlgorithm.sha256, "abc123")],
    hosts := ["https://www.youtube.com"],
    nonces := ["abc123"],
    schema := [("data", false), ("blob", true)],
    self := true,
    unsafeCfg := [("wasmUnsafeEval", true), ("unsafeEval", true)] }

/-- Witness for C2 at a concrete configuration. -/
theorem c2_witness :
    configToSourceExpressionList exampleConfigC2
        = .ok (joinSep " " (specTokens exampleConfigC2))
      ∧ (UNSAFE_KEYWORD_MAP.map Prod.fst).Pairwise (fun a b => charListLt a.data b.data = true)
      ∧ (SCHEME_KEYWORD_MAP.map Prod.fst).Pairwise (fun a b => charListLt a.data b.data = true)
      ∧ ∀ tok ∈ primaryTokens exampleConfigC2
            ++ sectionTokensSpec UNSAFE_KEYWORD_MAP exampleConfigC2.unsafeCfg
            ++ sectionTokensSpec SCHEME_KEYWORD_MAP exampleConfigC2.schema
            ++ exampleConfigC2.hashes.map (fun p => hashToken p.1 p.2)
            ++ exampleConfigC2.nonces.map formatNonceValue,
          tok ∉ Directive.values :=
  c2_config_stage_order exampleConfigC2 (by decide) (by decide)

/-- Sanity check: the out-of-order flags of exampleConfigC2 are emitted
alphabetically and the whole output matches the specification example. -/
theorem exampleConfigC2_output :
    configToSourceExpressionList exampleConfigC2
      = .ok "'self' 'unsafe-eval' 'wasm-unsafe-eval' blob: https://www.youtube.com 'sha256-abc123' 'nonce-abc123'" := by
  decide

/-! ## Claim C9 material -/

theorem filterMap_orderedInsert_none {α β : Type} (r : α → α → Prop) [DecidableRel r]
    (f : α → Option β) (x : α) (hx : f x = none) :
    ∀ l : List α, (List.orderedInsert r x l).filterMap f = l.filterMap f
  | [] => by
    rw [List.orderedInsert, List.filterMap_cons, hx]
  | y :: ys => by
    rw [List.orderedInsert]
    split
    · rw [List.filterMap_cons, hx]
    · rw [List.filterMap_cons, filterMap_orderedInsert_none r f x hx ys,
        List.filterMap_cons]

theorem lookup_eq_none_of_isSome_false {β : Type} {M : List (String × β)} {k : String}
    (h : (M.lookup k).isSome = false) : M.lookup k = none := by
  cases hc : M.lookup k with
  | none => rfl
  | some v =>
    rw [hc] at h
    exact Bool.noConfusion h

theorem flagSectionTokens_unknown (M : List (String × String)) (k : String) (b : Bool)
    (hk : M.lookup k = none) (l : List (String × Bool)) :
    flagSectionTokens M ((k, b) :: l) = flagSectionTokens M l := by
  show (List.orderedInsert entryLe (k, b) (List.insertionSort entryLe l)).filterMap _
      = flagSectionTokens M l
  apply filterMap_orderedInsert_none
  cases b
  · rfl
  · show M.lookup k = none
    exact hk

/-- C9: configToSourceExpressionList never raises on a well-typed
PolicyConfig: every config yields an ok result, the empty config and the
all-flags-false config yield the empty string, unknown flag keys in the
unsafe and scheme sections are silently ignored, and host strings are passed
through verbatim with no validation. -/
theorem c9_config_never_raises :
    (∀ c : PolicyConfig, ∃ s, configToSourceExpressionList c = .ok s)
      ∧ configToSourceExpressionList {} = .ok ""
      ∧ configToSourceExpressionList
          { inlineSpeculationRules := false, reportSample := false,
            schema := [("blob", false), ("data", false), ("filesystem", false),
              ("http", false), ("https", false), ("mediastream", false),
              ("ws", false), ("wss", false)],
            self := false, strictDynamic := false,
            unsafeCfg := [("unsafeEval", false), ("unsafeHashes", false),
              ("unsafeInline", false), ("wasmUnsafeEval", false)] } = .ok ""
      ∧ (∀ (c : PolicyConfig) (k : String) (b : Bool), isUnsafeKeyword k = false →
          configToSourceExpressionList { c with unsafeCfg := (k, b) :: c.unsafeCfg }
            = configToSourceExpressionList c)
      ∧ (∀ (c : PolicyConfig) (k : String) (b : Bool), isSchemeKeyword k = false →
          configToSourceExpressionList { c with schema := (k, b) :: c.schema }
            = configToSourceExpressionList c)
      ∧ (∀ hosts : List String,
          configToSourceExpressionList { hosts := hosts } = .ok (joinSep " " hosts)) := by
  refine ⟨?_, by decide, by decide, ?_, ?_, ?_⟩
  · intro c
    unfold configToSourceExpressionList
    rw [formatHashTokens_ok]
    exact ⟨_, rfl⟩
  · intro c k b hk
    unfold configToSourceExpressionList
    rw [flagSectionTokens_unknown UNSAFE_KEYWORD_MAP k b
      (lookup_eq_none_of_isSome_false hk) c.unsafeCfg]
  · intro c k b hk
    unfold configToSourceExpressionList
    rw [flagSectionTokens_unknown SCHEME_KEYWORD_MAP k b
      (lookup_eq_none_of_isSome_false hk) c.schema]
  · intro hosts
    show Except.ok (joinSep " " ((hosts ++ []) ++ [])) = Except.ok (joinSep " " hosts)
    rw [List.append_nil, List.append_nil]

/-- Witness for C9: an unknown unsafe flag key is ignored at a concrete
config, and a malformed host passes through verbatim. -/
theorem c9_witness :
    configToSourceExpressionList { ({} : PolicyConfig) with unsafeCfg := [("notAFlag", true)] }
        = configToSourceExpressionList {}
      ∧ configToSourceExpressionList { hosts := ["@@not a host;;"] }
          = .ok (joinSep " " ["@@not a host;;"]) :=
  ⟨c9_config_never_raises.2.2.2.1 {} "notAFlag" true (by decide),
    c9_config_never_raises.2.2.2.2.2 ["@@not a host;;"]⟩

/-! ## Claim C8 material: flipping one flag -/

/-- Setting one boolean flag of a JavaScript record to true: update the value
in place when the key is present, append the property otherwise. -/
def setKey (l : List (String × Bool)) (k : String) : List (String × Bool) :=
  if (l.lookup k).isSome then
    l.map fun kv => if kv.1 == k then (kv.1, true) else kv
  else
    l ++ [(k, true)]

theorem lookup_map_update (k k' : String) :
    ∀ l : List (String × Bool),
      (l.map fun kv => if kv.1 == k then (kv.1, true) else kv).lookup k'
        = if k' = k then (l.lookup k).map (fun _ => true) else l.lookup k'
  | [] => by
    by_cases h : k' = k <;> simp [h]
  | (a, b) :: tl => by
    have ih := lookup_map_update k k' tl
    by_cases hak : a = k
    · subst hak
      by_cases hk : k' = a
      · subst hk
        simp [List.lookup_cons]
      · simp only [List.map_cons, List.lookup_cons, beq_self_eq_true, if_true,
          beq_eq_false_iff_ne.2 hk, if_neg hk]
        simpa [hk] using ih
    · by_cases hk : k' = a
      · subst hk
        simp [List.lookup_cons, beq_eq_false_iff_ne.2 hak, hak]
      · simp [List.lookup_cons, beq_eq_false_iff_ne.2 hak, hak,
          beq_eq_false_iff_ne.2 (fun hc : k = a => hak hc.symm),
          beq_eq_false_iff_ne.2 hk, hk]
        simpa using ih

theorem lookup_none_not_mem {l : List (String × Bool)} {k : String}
    (h : l.lookup k = none) : k ∉ l.map Prod.fst := by
  induction l with
  | nil => simp
  | cons hd tl ih =>
    obtain ⟨a, b⟩ := hd
    rw [List.lookup_cons] at h
    by_cases hk : k = a
    · rw [show (k == a) = true from beq_iff_eq.2 hk] at h
      exact Option.noConfusion h
    · rw [show (k == a) = false from beq_eq_false_iff_ne.2 hk] at h
      simp only [List.map_cons, List.mem_cons]
      rintro (hc | hc)
      · exact hk hc
      · exact ih h hc

theorem lookup_append_absent (k k' : String) :
    ∀ l : List (String × Bool), l.lookup k = none →
      (l ++ [(k, true)]).lookup k' = if k' = k then some true else l.lookup k'
  | [], _ => by
    by_cases hk : k' = k
    · simp [List.lookup_cons, hk]
    · simp [List.lookup_cons, beq_eq_false_iff_ne.2 hk, hk]
  | (a, b) :: tl, h => by
    rw [List.lookup_cons] at h
    by_cases hka : k = a
    · rw [show (k == a) = true from beq_iff_eq.2 hka] at h
      exact Option.noConfusion h
    · rw [show (k == a) = false from beq_eq_false_iff_ne.2 hka] at h
      by_cases hk : k' = a
      · subst hk
        have : ¬(k' = k) := fun hc => hka hc.symm
        simp [List.lookup_cons, this]
      · rw [List.cons_append, List.lookup_cons,
          show (k' == a) = false from beq_eq_false_iff_ne.2 hk,
          lookup_append_absent k k' tl h, List.lookup_cons,
          show (k' == a) = false from beq_eq_false_iff_ne.2 hk]

theorem lookup_setKey (l : List (String × Bool)) (k k' : String) :
    (setKey l k).lookup k' = if k' = k then some true else l.lookup k' := by
  unfold setKey
  cases hs : (l.lookup k).isSome with
  | true =>
    rw [if_pos rfl, lookup_map_update]
    cases hc : l.lookup k with
    | none => rw [hc] at hs; exact Bool.noConfusion hs
    | some b => by_cases hk : k' = k <;> simp [hk, hc]
  | false =>
    rw [if_neg (fun hc : false = true => Bool.noConfusion hc)]
    exact lookup_append_absent k k' l (lookup_eq_none_of_isSome_false hs)

theorem flagTrue_setKey (l : List (String × Bool)) (k k' : String) :
    flagTrue (setKey l k) k' = if k' = k then true else flagTrue l k' := by
  unfold flagTrue
  rw [lookup_setKey]
  by_cases hk : k' = k <;> simp [hk]

theorem setKey_keysNodup {l : List (String × Bool)} (h : keysNodup l) (k : String) :
    keysNodup (setKey l k) := by
  unfold setKey
  cases hs : (l.lookup k).isSome with
  | true =>
    rw [if_pos rfl]
    have : ((l.map fun kv => if kv.1 == k then (kv.1, true) else kv).map Prod.fst)
        = l.map Prod.fst := by
      rw [List.map_map]
      apply List.map_congr_left
      intro kv _
      by_cases hkv : kv.1 = k <;> simp [hkv]
    unfold keysNodup
    rw [this]
    exact h
  | false =>
    rw [if_neg (fun hc : false = true => Bool.noConfusion hc)]
    unfold keysNodup
    rw [List.map_append]
    rw [List.nodup_append]
    refine ⟨h, by simp, ?_⟩
    intro x hx hxk
    simp only [List.map_cons, List.map_nil, List.mem_singleton] at hxk
    subst hxk
    exact lookup_none_not_mem (lookup_eq_none_of_isSome_false hs) hx

theorem split_of_lookup {β : Type} :
    ∀ {M : List (String × β)} {k : String} {v : β}, M.lookup k = some v →
      ∃ pre post, M = pre ++ (k, v) :: post ∧ k ∉ pre.map Prod.fst
  | [], k, v, h => by simp at h
  | (a, b) :: tl, k, v, h => by
    rw [List.lookup_cons] at h
    by_cases hka : k = a
    · subst hka
      rw [show (k == k) = true from by simp] at h
      refine ⟨[], tl, ?_, by simp⟩
      rw [← Option.some.inj h]
      rfl
    · rw [show (k == a) = false from beq_eq_false_iff_ne.2 hka] at h
      obtain ⟨pre, post, hsplit, hpre⟩ := split_of_lookup (M := tl) h
      refine ⟨(a, b) :: pre, post, ?_, ?_⟩
      · rw [List.cons_append, hsplit]
      · simp only [List.map_cons, List.mem_cons]
        rintro (hc | hc)
        · exact hka hc
        · exact hpre hc

theorem sectionTokensSpec_setKey (M : List (String × String))
    (hMnodup : (M.map Prod.fst).Nodup) {k tok : String} (hk : M.lookup k = some tok)
    (l : List (String × Bool)) (hfalse : flagTrue l k = false) :
    ∃ u v, sectionTokensSpec M l = u ++ v
      ∧ sectionTokensSpec M (setKey l k) = u ++ tok :: v := by
  obtain ⟨pre, post, hsplit, hkpre⟩ := split_of_lookup hk
  have hkpost : k ∉ post.map Prod.fst := by
    rw [hsplit, List.map_append, List.map_cons] at hMnodup
    have := (List.nodup_append.1 hMnodup).2.1
    exact (List.nodup_cons.1 this).1
  refine ⟨pre.filterMap (fun kv => if flagTrue l kv.1 then some kv.2 else none),
    post.filterMap (fun kv => if flagTrue l kv.1 then some kv.2 else none), ?_, ?_⟩
  · unfold sectionTokensSpec
    rw [hsplit, List.filterMap_append, List.filterMap_cons]
    have : (if flagTrue l (k, tok).1 then some (k, tok).2 else none) = (none : Option String) := by
      show (if flagTrue l k = true then some tok else none) = none
      rw [if_neg (by rw [hfalse]; exact Bool.noConfusion)]
    rw [this]
  · unfold sectionTokensSpec
    rw [hsplit, List.filterMap_append, List.filterMap_cons]
    have hmid : (if flagTrue (setKey l k) (k, tok).1 then some (k, tok).2 else none)
        = some tok := by
      show (if flagTrue (setKey l k) k = true then some tok else none) = some tok
      rw [if_pos (by rw [flagTrue_setKey, if_pos rfl])]
    rw [hmid]
    have hpre : pre.filterMap (fun kv => if flagTrue (setKey l k) kv.1 then some kv.2 else none)
        = pre.filterMap (fun kv => if flagTrue l kv.1 then some kv.2 else none) := by
      apply List.filterMap_congr
      intro kv hkv
      have hne : kv.1 ≠ k := fun hc => hkpre (hc ▸ List.mem_map_of_mem Prod.fst hkv)
      rw [flagTrue_setKey, if_neg hne]
    have hpost : post.filterMap (fun kv => if flagTrue (setKey l k) kv.1 then some kv.2 else none)
        = post.filterMap (fun kv => if flagTrue l kv.1 then some kv.2 else none) := by
      apply List.filterMap_congr
      intro kv hkv
      have hne : kv.1 ≠ k := fun hc => hkpost (hc ▸ List.mem_map_of_mem Prod.fst hkv)
      rw [flagTrue_setKey, if_neg hne]
    rw [hpre, hpost]

/-- Identifier of one boolean flag of a PolicyConfig. -/
inductive FlagId where
  | fSelf
  | fStrictDynamic
  | fInlineSpeculationRules
  | fReportSample
  | fUnsafe (k : String)
  | fScheme (k : String)

/-- Whether the flag names a known configuration key. -/
def flagKnown : FlagId → Bool
  | .fUnsafe k => isUnsafeKeyword k
  | .fScheme k => isSchemeKeyword k
  | _ => true

/-- The current boolean value of a flag in a config. -/
def flagValue (c : PolicyConfig) : FlagId → Bool
  | .fSelf => c.self
  | .fStrictDynamic => c.strictDynamic
  | .fInlineSpeculationRules => c.inlineSpeculationRules
  | .fReportSample => c.reportSample
  | .fUnsafe k => flagTrue c.unsafeCfg k
  | .fScheme k => flagTrue c.schema k

/-- The config with the given flag set to true. -/
def setFlag (c : PolicyConfig) : FlagId → PolicyConfig
  | .fSelf => { c with self := true }
  | .fStrictDynamic => { c with strictDynamic := true }
  | .fInlineSpeculationRules => { c with inlineSpeculationRules := true }
  | .fReportSample => { c with reportSample := true }
  | .fUnsafe k => { c with unsafeCfg := setKey c.unsafeCfg k }
  | .fScheme k => { c with schema := setKey c.schema k }

/-- The source-expression token a flag contributes when true. -/
def flagToken : FlagId → String
  | .fSelf => KeywordValue.Self
  | .fStrictDynamic => KeywordValue.StrictDynamic
  | .fInlineSpeculationRules => KeywordValue.InlineSpeculationRules
  | .fReportSample => KeywordValue.ReportSample
  | .fUnsafe k => (UNSAFE_KEYWORD_MAP.lookup k).getD ""
  | .fScheme k => (SCHEME_KEYWORD_MAP.lookup k).getD ""

/-- C8: flipping a single false (or absent) flag of a PolicyConfig to true
inserts exactly the token of that flag at its stage position in the output of
configToSourceExpressionList, leaving every other token and their order
unchanged. -/
theorem c8_single_flag_insertion (c : PolicyConfig) (f : FlagId)
    (hu : keysNodup c.unsafeCfg) (hsc : keysNodup c.schema)
    (hknown : flagKnown f = true) (hfalse : flagValue c f = false) :
    ∃ u v, configToSourceExpressionList c = .ok (joinSep " " (u ++ v))
      ∧ configToSourceExpressionList (setFlag c f)
          = .ok (joinSep " " (u ++ flagToken f :: v)) := by
  cases f with
  | fSelf =>
    refine ⟨[], (if c.strictDynamic then [KeywordValue.StrictDynamic] else [])
      ++ ((if c.inlineSpeculationRules then [KeywordValue.InlineSpeculationRules] else [])
      ++ ((if c.reportSample then [KeywordValue.ReportSample] else [])
      ++ (sectionTokensSpec UNSAFE_KEYWORD_MAP c.unsafeCfg
      ++ (sectionTokensSpec SCHEME_KEYWORD_MAP c.schema
      ++ (c.hosts ++ (c.hashes.map (fun p => hashToken p.1 p.2)
      ++ c.nonces.map formatNonceValue)))))), ?_, ?_⟩
    · rw [config_eq_spec c hu hsc]
      refine congrArg (fun t => Except.ok (joinSep " " t)) ?_
      have hc : c.self = false := hfalse
      simp [specTokens, primaryTokens, hc, List.append_assoc]
    · rw [config_eq_spec (setFlag c FlagId.fSelf) hu hsc]
      refine congrArg (fun t => Except.ok (joinSep " " t)) ?_
      simp [specTokens, primaryTokens, setFlag, flagToken, List.append_assoc]
  | fStrictDynamic =>
    refine ⟨(if c.self then [KeywordValue.Self] else []),
      (if c.inlineSpeculationRules then [KeywordValue.InlineSpeculationRules] else [])
      ++ ((if c.reportSample then [KeywordValue.ReportSample] else [])
      ++ (sectionTokensSpec UNSAFE_KEYWORD_MAP c.unsafeCfg
      ++ (sectionTokensSpec SCHEME_KEYWORD_MAP c.schema
      ++ (c.hosts ++ (c.hashes.map (fun p => hashToken p.1 p.2)
      ++ c.nonces.map formatNonceValue))))), ?_, ?_⟩
    · rw [config_eq_spec c hu hsc]
      refine congrArg (fun t => Except.ok (joinSep " " t)) ?_
      have hc : c.strictDynamic = false := hfalse
      simp [specTokens, primaryTokens, hc, List.append_assoc]
    · rw [config_eq_spec (setFlag c FlagId.fStrictDynamic) hu hsc]
      refine congrArg (fun t => Except.ok (joinSep " " t)) ?_
      simp [specTokens, primaryTokens, setFlag, flagToken, List.append_assoc]
  | fInlineSpeculationRules =>
    refine ⟨(if c.self then [KeywordValue.Self] else [])
      ++ (if c.strictDynamic then [KeywordValue.StrictDynamic] else []),
      (if c.reportSample then [KeywordValue.ReportSample] else [])
      ++ (sectionTokensSpec UNSAFE_KEYWORD_MAP c.unsafeCfg
      ++ (sectionTokensSpec SCHEME_KEYWORD_MAP c.schema
      ++ (c.hosts ++ (c.hashes.map (fun p => hashToken p.1 p.2)
      ++ c.nonces.map formatNonceValue)))), ?_, ?_⟩
    · rw [config_eq_spec c hu hsc]
      refine congrArg (fun t => Except.ok (joinSep " " t)) ?_
      have hc : c.inlineSpeculationRules = false := hfalse
      simp [specTokens, primaryTokens, hc, List.append_assoc]
    · rw [config_eq_spec (setFlag c FlagId.fInlineSpeculationRules) hu hsc]
      refine congrArg (fun t => Except.ok (joinSep " " t)) ?_
      simp [specTokens, primaryTokens, setFlag, flagToken, List.append_assoc]
  | fReportSample =>
    refine ⟨(if c.self then [KeywordValue.Self] else [])
      ++ ((if c.strictDynamic then [KeywordValue.StrictDynamic] else [])
      ++ (if c.inlineSpeculationRules then [KeywordValue.InlineSpeculationRules] else [])),
      sectionTokensSpec UNSAFE_KEYWORD_MAP c.unsafeCfg
      ++ (sectionTokensSpec SCHEME_KEYWORD_MAP c.schema
      ++ (c.hosts ++ (c.hashes.map (fun p => hashToken p.1 p.2)
      ++ c.nonces.map formatNonceValue))), ?_, ?_⟩
    · rw [config_eq_spec c hu hsc]
      refine congrArg (fun t => Except.ok (joinSep " " t)) ?_
      have hc : c.reportSample = false := hfalse
      simp [specTokens, primaryTokens, hc, List.append_assoc]
    · rw [config_eq_spec (setFlag c FlagId.fReportSample) hu hsc]
      refine congrArg (fun t => Except.ok (joinSep " " t)) ?_
      simp [specTokens, primaryTokens, setFlag, flagToken, List.append_assoc]
  | fUnsafe k =>
    have hk : UNSAFE_KEYWORD_MAP.lookup k = some ((UNSAFE_KEYWORD_MAP.lookup k).getD "") := by
      cases hc : UNSAFE_KEYWORD_MAP.lookup k with
      | none =>
        have : isUnsafeKeyword k = false := by
          unfold isUnsafeKeyword
          rw [hc]
          rfl
        rw [show flagKnown (FlagId.fUnsafe k) = isUnsafeKeyword k from rfl, this] at hknown
        exact Bool.noConfusion hknown
      | some t => rfl
    obtain ⟨u1, v1, h1, h2⟩ :=
      sectionTokensSpec_setKey UNSAFE_KEYWORD_MAP (by decide) hk c.unsafeCfg hfalse
    refine ⟨primaryTokens c ++ u1,
      v1 ++ (sectionTokensSpec SCHEME_KEYWORD_MAP c.schema
      ++ (c.hosts ++ (c.hashes.map (fun p => hashToken p.1 p.2)
      ++ c.nonces.map formatNonceValue))), ?_, ?_⟩
    · rw [config_eq_spec c hu hsc]
      refine congrArg (fun t => Except.ok (joinSep " " t)) ?_
      simp [specTokens, h1, List.append_assoc]
    · rw [show setFlag c (FlagId.fUnsafe k) = { c with unsafeCfg := setKey c.unsafeCfg k }
        from rfl]
      rw [config_eq_spec { c with unsafeCfg := setKey c.unsafeCfg k }
        (setKey_keysNodup hu k) hsc]
      refine congrArg (fun t => Except.ok (joinSep " " t)) ?_
      simp [specTokens, h2, flagToken, List.append_assoc]
      rfl
  | fScheme k =>
    have hk : SCHEME_KEYWORD_MAP.lookup k = some ((SCHEME_KEYWORD_MAP.lookup k).getD "") := by
      cases hc : SCHEME_KEYWORD_MAP.lookup k with
      | none =>
        have : isSchemeKeyword k = false := by
          unfold isSchemeKeyword
          rw [hc]
          rfl
        rw [show flagKnown (FlagId.fScheme k) = isSchemeKeyword k from rfl, this] at hknown
        exact Bool.noConfusion hknown
      | some t => rfl
    obtain ⟨u1, v1, h1, h2⟩ :=
      sectionTokensSpec_setKey SCHEME_KEYWORD_MAP (by decide) hk c.schema hfalse
    refine ⟨primaryTokens c ++ (sectionTokensSpec UNSAFE_KEYWORD_MAP c.unsafeCfg ++ u1),
      v1 ++ (c.hosts ++ (c.hashes.map (fun p => hashToken p.1 p.2)
      ++ c.nonces.map formatNonceValue)), ?_, ?_⟩
    · rw [config_eq_spec c hu hsc]
      refine congrArg (fun t => Except.ok (joinSep " " t)) ?_
      simp [specTokens, h1, List.append_assoc]
    · rw [show setFlag c (FlagId.fScheme k) = { c with schema := setKey c.schema k }
        from rfl]
      rw [config_eq_spec { c with schema := setKey c.schema k } hu
        (setKey_keysNodup hsc k)]
      refine congrArg (fun t => Except.ok (joinSep " " t)) ?_
      simp [specTokens, h2, flagToken, List.append_assoc]
      rfl

/-- Witness for C8: flipping the unsafeInline flag of the empty config. -/
theorem c8_witness :
    ∃ u v, configToSourceExpressionList {} = .ok (joinSep " " (u ++ v))
      ∧ configToSourceExpressionList (setFlag {} (.fUnsafe "unsafeInline"))
          = .ok (joinSep " " (u ++ flagToken (.fUnsafe "unsafeInline") :: v)) :=
  c8_single_flag_insertion {} (.fUnsafe "unsafeInline")
    (by decide) (by decide) (by decide) (by decide)

/-! ## src/src/policy.ts -/

/-- formatPolicyDirective from policy.ts: the bare directive for an empty
value list, otherwise the directive followed by the trimmed values joined
with single spaces. -/
def formatPolicyDirective (directive : String) (values : List String) : String :=
  if values.length = 0 then directive
  else directive ++ " " ++ joinSep " " (values.map jsTrim)

/-- Array.prototype.sort with a caller comparator returning a number: a
stable sort keeping x before y whenever the comparator does not order y
strictly before x. -/
def jsSortBy (sort : String → String → Int) (policies : List (String × List String)) :
    List (String × List String) :=
  List.insertionSort (fun x y => sort x.1 y.1 ≤ 0) policies

/-- formatPolicyDirectiveList from policy.ts, the overload taking an explicit
comparator: stable-sort the clauses by directive, format each clause, join
with the directive-list separator. -/
def formatPolicyDirectiveListWith (sort : String → String → Int)
    (policies : List (String × List String)) : String :=
  joinSep "; " ((jsSortBy sort policies).map fun p => formatPolicyDirective p.1 p.2)

/-- formatPolicyDirectiveList from policy.ts, the overload without a
comparator, which delegates to the comparator overload with sortDirectives. -/
def formatPolicyDirectiveList (policies : List (String × List String)) : String :=
  formatPolicyDirectiveListWith sortDirectives policies

/-- C6: formatPolicyDirective returns the bare directive name for an empty
value list, and otherwise the directive followed by the trimmed values
joined by single spaces, without deduplication or syntax validation; with
the concrete specification examples, a duplicated value kept twice and a
malformed value passed through. -/
theorem c6_format_policy_directive :
    (∀ (d : String) (vs : List String),
      formatPolicyDirective d vs
        = if vs.length = 0 then d else d ++ " " ++ joinSep " " (vs.map jsTrim))
      ∧ formatPolicyDirective "sandbox" [] = "sandbox"
      ∧ formatPolicyDirective "default-src" [" 'self' "] = "default-src 'self'"
      ∧ formatPolicyDirective "script-src" ["'self'", "'self'"] = "script-src 'self' 'self'"
      ∧ formatPolicyDirective "img-src" ["@@not@@valid@@"] = "img-src @@not@@valid@@" :=
  ⟨fun _ _ => rfl, by decide, by decide, by decide, by decide⟩

/-! ## Stability of the modelled JavaScript sort -/

theorem filter_orderedInsert_pos {α : Type} (r : α → α → Prop) [DecidableRel r]
    (P : α → Bool) (a : α) (hP : P a = true) (hcls : ∀ y, P y = true → r a y) :
    ∀ l : List α, (List.orderedInsert r a l).filter P = a :: l.filter P
  | [] => by simp [List.orderedInsert, hP]
  | y :: ys => by
    rw [List.orderedInsert]
    split
    · simp [List.filter_cons, hP]
    · rename_i hr
      have hPy : P y = false := by
        cases hy : P y with
        | false => rfl
        | true => exact absurd (hcls y hy) hr
      simp [List.filter_cons, hPy, filter_orderedInsert_pos r P a hP hcls ys]

theorem filter_orderedInsert_neg {α : Type} (r : α → α → Prop) [DecidableRel r]
    (P : α → Bool) (a : α) (hP : P a = false) :
    ∀ l : List α, (List.orderedInsert r a l).filter P = l.filter P
  | [] => by simp [List.orderedInsert, hP]
  | y :: ys => by
    rw [List.orderedInsert]
    split
    · simp [List.filter_cons, hP]
    · simp [List.filter_cons, filter_orderedInsert_neg r P a hP ys]

theorem filter_insertionSort {α : Type} (r : α → α → Prop) [DecidableRel r]
    (P : α → Bool) (hcls : ∀ x y, P x = true → P y = true → r x y) :
    ∀ l : List α, (List.insertionSort r l).filter P = l.filter P
  | [] => rfl
  | a :: as => by
    show (List.orderedInsert r a (List.insertionSort r as)).filter P = _
    cases ha : P a with
    | true =>
      rw [filter_orderedInsert_pos r P a ha (fun y hy => hcls a y ha hy),
        filter_insertionSort r P hcls as]
      simp [List.filter_cons, ha]
    | false =>
      rw [filter_orderedInsert_neg r P a ha, filter_insertionSort r P hcls as]
      simp [List.filter_cons, ha]

/-- C3: the comparator-free formatPolicyDirectiveList equals the comparator
variant applied with sortDirectives; for every comparator the clause list is
stably sorted: the output is the "; "-join of the per-clause formatting of a
permutation of the input clauses (so the comparator can only reorder whole
clauses and never touches the values inside a clause), the output clause
order is sorted by the comparator whenever the comparator is transitive and
total, and clauses within any comparator-tied class keep their input order. -/
theorem c3_format_policy_directive_list :
    (∀ policies, formatPolicyDirectiveList policies
        = formatPolicyDirectiveListWith sortDirectives policies)
      ∧ (∀ (sort : String → String → Int) (policies : List (String × List String)),
          (jsSortBy sort policies).Perm policies
            ∧ formatPolicyDirectiveListWith sort policies
                = joinSep "; "
                    ((jsSortBy sort policies).map fun p => formatPolicyDirective p.1 p.2))
      ∧ (∀ (sort : String → String → Int) (policies : List (String × List String)),
          (∀ x y z : String, sort x y ≤ 0 → sort y z ≤ 0 → sort x z ≤ 0) →
          (∀ x y : String, sort x y ≤ 0 ∨ sort y x ≤ 0) →
          (jsSortBy sort policies).Pairwise (fun p q => sort p.1 q.1 ≤ 0))
      ∧ (∀ (sort : String → String → Int) (policies : List (String × List String))
            (P : String × List String → Bool),
          (∀ x y, P x = true → P y = true → sort x.1 y.1 ≤ 0) →
          (jsSortBy sort policies).filter P = policies.filter P) := by
  refine ⟨fun _ => rfl,
    fun sort policies => ⟨List.perm_insertionSort _ _, rfl⟩, ?_, ?_⟩
  · intro sort policies htrans htotal
    haveI : IsTrans (String × List String) (fun x y => sort x.1 y.1 ≤ 0) :=
      ⟨fun a b c h1 h2 => htrans a.1 b.1 c.1 h1 h2⟩
    haveI : IsTotal (String × List String) (fun x y => sort x.1 y.1 ≤ 0) :=
      ⟨fun a b => htotal a.1 b.1⟩
    exact List.sorted_insertionSort _ _
  · intro sort policies P hcls
    exact filter_insertionSort _ P (fun x y hx hy => hcls x y hx hy) policies

/-- Witness for C3: the default variant at a concrete clause list, and
stability at a concrete all-tied comparator. -/
theorem c3_witness :
    formatPolicyDirectiveList [("script-src", ["'self'"]), ("default-src", ["'self'"])]
        = formatPolicyDirectiveListWith sortDirectives
            [("script-src", ["'self'"]), ("default-src", ["'self'"])]
      ∧ (jsSortBy (fun _ _ => 0) [("b", ["x"]), ("a", ["y"])]).filter (fun _ => true)
          = [("b", ["x"]), ("a", ["y"])].filter (fun _ => true) :=
  ⟨c3_format_policy_directive_list.1 _,
    c3_format_policy_directive_list.2.2.2 (fun _ _ => 0) [("b", ["x"]), ("a", ["y"])]
      (fun _ => true) (fun _ _ _ _ => le_refl 0)⟩

/-! ## Claim C7 material: header-grammar conformance -/

/-- No two consecutive spaces anywhere in the character list. -/
def noDoubleSpace : List Char → Bool
  | a :: b :: rest => !(a == ' ' && b == ' ') && noDoubleSpace (b :: rest)
  | _ => true

/-- The grammar-conformance predicate of the claim for an emitted header
value: no run of two or more spaces, no trailing space, no trailing
separator (and, as the natural strengthening the induction needs, no leading
space). -/
def Conformant (s : String) : Prop :=
  noDoubleSpace s.data = true ∧ s.data.head? ≠ some ' '
    ∧ s.data.getLast? ≠ some ' ' ∧ s.data.getLast? ≠ some ';'

/-- A well-behaved chunk of output: nonempty, no double space, no leading or
trailing space, no semicolon. -/
def goodChunk (l : List Char) : Prop :=
  l ≠ [] ∧ noDoubleSpace l = true ∧ l.head? ≠ some ' '
    ∧ l.getLast? ≠ some ' ' ∧ ';' ∉ l

theorem nds_cons_cons {a b : Char} {r : List Char} :
    noDoubleSpace (a :: b :: r) = true
      ↔ ((a == ' ' && b == ' ') = false ∧ noDoubleSpace (b :: r) = true) := by
  rw [show noDoubleSpace (a :: b :: r)
      = (!(a == ' ' && b == ' ') && noDoubleSpace (b :: r)) from rfl]
  rw [Bool.and_eq_true, Bool.not_eq_true']

theorem and_beq_false_left {a b : Char} (h : a ≠ ' ') : (a == ' ' && b == ' ') = false := by
  rw [beq_eq_false_iff_ne.2 h, Bool.false_and]

theorem and_beq_false_right {a b : Char} (h : b ≠ ' ') : (a == ' ' && b == ' ') = false := by
  rw [beq_eq_false_iff_ne.2 h, Bool.and_false]

theorem getLast?_ne_of_not_mem {c : Char} {l : List Char} (h : c ∉ l) :
    l.getLast? ≠ some c :=
  fun hc => h (List.mem_of_mem_getLast? hc)

theorem head?_ne_of_not_mem {c : Char} {l : List Char} (h : c ∉ l) :
    l.head? ≠ some c :=
  fun hc => h (List.mem_of_mem_head? hc)

theorem nds_of_no_space : ∀ {l : List Char}, ' ' ∉ l → noDoubleSpace l = true
  | [], _ => rfl
  | [_], _ => rfl
  | a :: b :: r, h => by
    rw [nds_cons_cons]
    constructor
    · exact and_beq_false_left (fun hc => h (hc ▸ List.mem_cons_self a (b :: r)))
    · exact nds_of_no_space (fun hc => h (List.mem_cons_of_mem _ hc))

theorem nds_append : ∀ {A : List Char} (B : List Char),
    noDoubleSpace A = true → noDoubleSpace B = true →
    (A.getLast? = some ' ' → B.head? ≠ some ' ') → noDoubleSpace (A ++ B) = true
  | [], B, _, hB, _ => hB
  | [a], B, _, hB, hbd => by
    cases B with
    | nil => rfl
    | cons b r =>
      show noDoubleSpace (a :: b :: r) = true
      rw [nds_cons_cons]
      refine ⟨?_, hB⟩
      by_cases ha : a = ' '
      · refine and_beq_false_right (fun hb : b = ' ' => ?_)
        exact hbd (by rw [ha]; rfl) (by rw [hb]; rfl)
      · exact and_beq_false_left ha
  | a :: a' :: as, B, hA, hB, hbd => by
    have h1 := (nds_cons_cons.1 hA).1
    have h2 := (nds_cons_cons.1 hA).2
    show noDoubleSpace (a :: a' :: (as ++ B)) = true
    rw [nds_cons_cons]
    refine ⟨h1, ?_⟩
    exact nds_append B h2 hB (fun hl => hbd (by rw [List.getLast?_cons_cons]; exact hl))

/-- A well-behaved joined directive list: no double space, no leading space,
no trailing space, no trailing separator. -/
def goodSemiChunk (l : List Char) : Prop :=
  noDoubleSpace l = true ∧ l.head? ≠ some ' '
    ∧ l.getLast? ≠ some ' ' ∧ l.getLast? ≠ some ';'

theorem head?_append_of_ne_nil {A : List Char} (X : List Char) (h : A ≠ []) :
    (A ++ X).head? = A.head? := by
  cases A with
  | nil => exact absurd rfl h
  | cons a t => rfl

theorem getLast?_append_of_ne_nil {X : List Char} (A : List Char) (h : X ≠ []) :
    (A ++ X).getLast? = X.getLast? := by
  rw [List.getLast?_append]
  cases hx : X.getLast? with
  | none => exact absurd (List.getLast?_eq_none_iff.1 hx) h
  | some v => rfl

theorem nds_space_cons {B : List Char} (hne : B ≠ []) (hh : B.head? ≠ some ' ')
    (hB : noDoubleSpace B = true) : noDoubleSpace (' ' :: B) = true := by
  cases B with
  | nil => exact absurd rfl hne
  | cons b r =>
    rw [nds_cons_cons]
    exact ⟨and_beq_false_right (fun hb : b = ' ' => hh (by rw [hb]; rfl)), hB⟩

theorem glue_space {A B : List Char} (hA : goodChunk A) (hB : goodChunk B) :
    goodChunk (A ++ ' ' :: B) := by
  refine ⟨?_, ?_, ?_, ?_, ?_⟩
  · intro hc
    exact hA.1 (List.append_eq_nil.1 hc).1
  · apply nds_append
    · exact hA.2.1
    · exact nds_space_cons hB.1 hB.2.2.1 hB.2.1
    · intro hl
      exact absurd hl hA.2.2.2.1
  · rw [head?_append_of_ne_nil _ hA.1]
    exact hA.2.2.1
  · cases B with
    | nil => exact absurd rfl hB.1
    | cons b r =>
      rw [getLast?_append_of_ne_nil A (by simp), List.getLast?_cons_cons]
      exact hB.2.2.2.1
  · intro hmem
    rcases List.mem_append.1 hmem with h | h
    · exact hA.2.2.2.2 h
    · rcases List.mem_cons.1 h with h | h
      · exact absurd h (by decide)
      · exact hB.2.2.2.2 h

theorem glue_semi {A B : List Char} (hA : goodChunk A) (hBne : B ≠ [])
    (hB : goodSemiChunk B) : goodSemiChunk (A ++ ';' :: ' ' :: B) := by
  refine ⟨?_, ?_, ?_, ?_⟩
  · apply nds_append
    · exact hA.2.1
    · rw [nds_cons_cons]
      exact ⟨and_beq_false_left (by decide), nds_space_cons hBne hB.2.1 hB.1⟩
    · intro _ hc
      exact absurd (Option.some.inj hc) (by decide)
  · rw [head?_append_of_ne_nil _ hA.1]
    exact hA.2.2.1
  · cases B with
    | nil => exact absurd rfl hBne
    | cons b r =>
      rw [getLast?_append_of_ne_nil A (by simp), List.getLast?_cons_cons,
        List.getLast?_cons_cons]
      exact hB.2.2.1
  · cases B with
    | nil => exact absurd rfl hBne
    | cons b r =>
      rw [getLast?_append_of_ne_nil A (by simp), List.getLast?_cons_cons,
        List.getLast?_cons_cons]
      exact hB.2.2.2

theorem joinSep_space_good : ∀ ts : List String, ts ≠ [] →
    (∀ t ∈ ts, goodChunk t.data) → goodChunk (joinSep " " ts).data
  | [], h, _ => absurd rfl h
  | [t], _, hts => hts t (List.mem_singleton.2 rfl)
  | t :: r :: rs, _, hts => by
    have hJ := joinSep_space_good (r :: rs) (by simp)
      (fun x hx => hts x (List.mem_cons_of_mem _ hx))
    have ht := hts t (List.mem_cons_self _ _)
    show goodChunk ((t ++ " " ++ joinSep " " (r :: rs))).data
    rw [show ((t ++ " ") ++ joinSep " " (r :: rs)).data
        = t.data ++ ' ' :: (joinSep " " (r :: rs)).data from by
      rw [strData_append, strData_append, List.append_assoc]
      rfl]
    exact glue_space ht hJ

theorem joinSep_semi_good : ∀ cs : List String, (∀ c ∈ cs, goodChunk c.data) →
    goodSemiChunk (joinSep "; " cs).data ∧ (cs ≠ [] → (joinSep "; " cs).data ≠ [])
  | [], _ => ⟨⟨rfl, by decide, by decide, by decide⟩, fun h => absurd rfl h⟩
  | [c], hcs => by
    have hc := hcs c (List.mem_singleton.2 rfl)
    exact ⟨⟨hc.2.1, hc.2.2.1, hc.2.2.2.1, getLast?_ne_of_not_mem hc.2.2.2.2⟩,
      fun _ => hc.1⟩
  | c :: r :: rs, hcs => by
    have hrec := joinSep_semi_good (r :: rs)
      (fun x hx => hcs x (List.mem_cons_of_mem _ hx))
    have hc := hcs c (List.mem_cons_self _ _)
    have hdata : (joinSep "; " (c :: r :: rs)).data
        = c.data ++ ';' :: ' ' :: (joinSep "; " (r :: rs)).data := by
      show ((c ++ "; ") ++ joinSep "; " (r :: rs)).data = _
      rw [strData_append, strData_append, List.append_assoc]
      rfl
    constructor
    · rw [hdata]
      exact glue_semi hc (hrec.2 (by simp)) hrec.1
    · intro _
      rw [hdata]
      intro hc0
      exact hc.1 (List.append_eq_nil.1 hc0).1

theorem clause_good {d : String} {vs : List String}
    (hd : d.data ≠ [] ∧ ' ' ∉ d.data ∧ ';' ∉ d.data)
    (hv : ∀ v ∈ vs, goodChunk (jsTrim v).data) :
    goodChunk (formatPolicyDirective d vs).data := by
  have hdg : goodChunk d.data :=
    ⟨hd.1, nds_of_no_space hd.2.1, head?_ne_of_not_mem hd.2.1,
      getLast?_ne_of_not_mem hd.2.1, hd.2.2⟩
  cases vs with
  | nil => exact hdg
  | cons v rest =>
    have hne : ¬((v :: rest).length = 0) := by simp
    show goodChunk (if (v :: rest).length = 0 then d
      else d ++ " " ++ joinSep " " ((v :: rest).map jsTrim)).data
    rw [if_neg hne]
    have hJ : goodChunk (joinSep " " ((v :: rest).map jsTrim)).data := by
      apply joinSep_space_good
      · simp
      · intro t ht
        rcases List.mem_map.1 ht with ⟨w, hw, hwt⟩
        rw [← hwt]
        exact hv w hw
    rw [show ((d ++ " ") ++ joinSep " " ((v :: rest).map jsTrim)).data
        = d.data ++ ' ' :: (joinSep " " ((v :: rest).map jsTrim)).data from by
      rw [strData_append, strData_append, List.append_assoc]
      rfl]
    exact glue_space hdg hJ

instance (l : List Char) : Decidable (goodChunk l) :=
  inferInstanceAs (Decidable (l ≠ [] ∧ noDoubleSpace l = true ∧ l.head? ≠ some ' '
    ∧ l.getLast? ≠ some ' ' ∧ ';' ∉ l))

instance (l : List Char) : Decidable (goodSemiChunk l) :=
  inferInstanceAs (Decidable (noDoubleSpace l = true ∧ l.head? ≠ some ' '
    ∧ l.getLast? ≠ some ' ' ∧ l.getLast? ≠ some ';'))

instance (s : String) : Decidable (Conformant s) :=
  inferInstanceAs (Decidable (noDoubleSpace s.data = true ∧ s.data.head? ≠ some ' '
    ∧ s.data.getLast? ≠ some ' ' ∧ s.data.getLast? ≠ some ';'))

/-- C7 counterexample: an empty value is passed through (trimmed to the
empty token), so the emitted clause ends in a space, violating the
directive-list grammar. -/
theorem c7_counterexample :
    formatPolicyDirective "default-src" [""] = "default-src "
      ∧ ("default-src ").data.getLast? = some ' ' := by
  constructor
  · decide
  · decide

/-- C7 amended: the emitted strings conform to the directive-list grammar
(no run of two spaces, no leading or trailing space, no trailing separator,
clauses joined by the two-character separator) provided every directive name
is nonempty and free of spaces and semicolons, and every value trims to a
nonempty token without double spaces, leading or trailing space, or
semicolons; without those conditions the grammar can be violated, as the
counterexample shows. -/
theorem c7_amended (d : String) (vs : List String) (sort : String → String → Int)
    (policies : List (String × List String))
    (hd : d.data ≠ [] ∧ ' ' ∉ d.data ∧ ';' ∉ d.data)
    (hv : ∀ v ∈ vs, goodChunk (jsTrim v).data)
    (hp : ∀ p ∈ policies, (p.1.data ≠ [] ∧ ' ' ∉ p.1.data ∧ ';' ∉ p.1.data)
        ∧ ∀ v ∈ p.2, goodChunk (jsTrim v).data) :
    Conformant (formatPolicyDirective d vs)
      ∧ Conformant (formatPolicyDirectiveListWith sort policies)
      ∧ formatPolicyDirectiveListWith sort policies
          = joinSep "; "
              ((jsSortBy sort policies).map fun p => formatPolicyDirective p.1 p.2) := by
  refine ⟨?_, ?_, rfl⟩
  · have h := clause_good hd hv
    exact ⟨h.2.1, h.2.2.1, h.2.2.2.1, getLast?_ne_of_not_mem h.2.2.2.2⟩
  · have hall : ∀ c ∈ (jsSortBy sort policies).map fun p => formatPolicyDirective p.1 p.2,
        goodChunk c.data := by
      intro cstr hcstr
      rcases List.mem_map.1 hcstr with ⟨p, hpmem, hpc⟩
      have hpmem' : p ∈ policies := ((List.perm_insertionSort _ _).mem_iff).1 hpmem
      rw [← hpc]
      exact clause_good (hp p hpmem').1 (hp p hpmem').2
    exact (joinSep_semi_good _ hall).1

/-- Witness for C7 amended at concrete well-formed inputs. -/
theorem c7_witness :
    Conformant (formatPolicyDirective "default-src" ["'self'", " https://cdn.example.com "])
      ∧ Conformant (formatPolicyDirectiveListWith sortDirectives
          [("script-src", ["'self'"]), ("sandbox", [])])
      ∧ formatPolicyDirectiveListWith sortDirectives
            [("script-src", ["'self'"]), ("sandbox", [])]
          = joinSep "; "
              ((jsSortBy sortDirectives [("script-src", ["'self'"]), ("sandbox", [])]).map
                fun p => formatPolicyDirective p.1 p.2) :=
  c7_amended "default-src" ["'self'", " https://cdn.example.com "] sortDirectives
    [("script-src", ["'self'"]), ("sandbox", [])]
    (by decide) (by decide) (by decide)
